import Mathlib

/-!
Shallow embedding of `log_tui.py` / `log_web.py` (server-log-viewer).

Strings are modelled as `List Char`; bytes as `List Nat` (values 0..255).
Subprocess and filesystem interactions are parameterised by explicit
oracle values describing their outcome, mirroring the branches of the
Python code.  All definitions are translated from the source files.
-/

namespace LogViewer

/-! ## Constants (`log_tui.py` top of file) -/

def MAX_LINES : Nat := 5000

def DEFAULT_TAIL : Nat := 500

def LEVELS : List (List Char) :=
  [['A','N','Y'], ['D','E','B','U','G'], ['I','N','F','O'],
   ['W','A','R','N'], ['E','R','R','O','R'],
   ['C','R','I','T','I','C','A','L']]

/-! ## Bounded line buffer (`deque(maxlen=MAX_LINES)`)

`collections.deque` with `maxlen=C`: an `append` on a full deque first
discards the leftmost (oldest) element. -/

def appendBounded (C : Nat) (buf : List (List Char)) (x : List Char) :
    List (List Char) :=
  let b := buf ++ [x]
  if C < b.length then b.drop (b.length - C) else b

/-- Appending a whole sequence of lines to an initially empty bounded
buffer, as repeated `self.lines.append(ln)`. -/
def appendAll (C : Nat) (xs : List (List Char)) : List (List Char) :=
  xs.foldl (appendBounded C) []

/-- The last `C` elements of a list (all of them when it is shorter). -/
def lastN (C : Nat) (l : List (List Char)) : List (List Char) :=
  l.drop (l.length - C)

theorem lastN_length_le (C : Nat) (l : List (List Char)) :
    (lastN C l).length ≤ C := by
  simp only [lastN, List.length_drop]
  omega

theorem appendBounded_lastN (C : Nat) (ys : List (List Char))
    (x : List Char) :
    appendBounded C (lastN C ys) x = lastN C (ys ++ [x]) := by
  simp only [appendBounded, lastN]
  by_cases h : ys.length < C
  · have h0 : ys.length - C = 0 := by omega
    simp only [h0, List.drop_zero, List.length_append, List.length_cons,
      List.length_nil]
    have : ¬ C < ys.length + 1 := by omega
    simp only [this, if_false]
    have h1 : ys.length + 1 - C = 0 := by omega
    simp [h1]
  · -- ys.length ≥ C
    push_neg at h
    have hlen : (ys.drop (ys.length - C)).length = C := by
      simp only [List.length_drop]; omega
    simp only [List.length_append, hlen, List.length_cons, List.length_nil]
    by_cases hC : 0 < C
    · have : C < C + 1 := by omega
      simp only [this, if_true]
      have harith : C + 1 - C = 1 := by omega
      rw [harith]
      rw [List.drop_append_of_le_length (by omega : 1 ≤ (ys.drop (ys.length - C)).length)]
      rw [List.drop_drop]
      have h2 : ys.length - C + 1 = ys.length + 1 - C := by omega
      have h3 : ys.length + (0 + 1) - C = ys.length + 1 - C := by omega
      rw [h2, h3]
      rw [List.drop_append_of_le_length (by omega : ys.length + 1 - C ≤ ys.length)]
    · -- C = 0
      have hC0 : C = 0 := by omega
      subst hC0
      simp

theorem appendAll_foldl (C : Nat) (ys xs : List (List Char)) :
    xs.foldl (appendBounded C) (lastN C ys) = lastN C (ys ++ xs) := by
  induction xs generalizing ys with
  | nil => simp
  | cons x xs ih =>
      simp only [List.foldl_cons, appendBounded_lastN]
      rw [ih (ys ++ [x])]
      simp

theorem appendAll_eq_lastN (C : Nat) (xs : List (List Char)) :
    appendAll C xs = lastN C xs := by
  have h := appendAll_foldl C [] xs
  simpa [appendAll, lastN] using h

/-! ## `sanitize_line` -/

/-- Character class `0` to `?` (0x30..0x3F) of `ANSI_ESCAPE_RE`. -/
def isParamByte (c : Char) : Bool := 0x30 ≤ c.toNat && c.toNat ≤ 0x3F

def isIntermediateByte (c : Char) : Bool := 0x20 ≤ c.toNat && c.toNat ≤ 0x2F

def isFinalByte (c : Char) : Bool := 0x40 ≤ c.toNat && c.toNat ≤ 0x7E

def ESC : Char := Char.ofNat 0x1B

/-- Try to match, at the head of `s`, the part of `ANSI_ESCAPE_RE` after
the ESC: a literal open bracket, a run of parameter bytes, a run of
intermediate bytes (0x20..0x2F), then one final byte (0x40..0x7E);
returns the remainder past the match.  The three character classes are
pairwise disjoint, so the greedy runs of the regex engine need no
backtracking. -/
def matchCsi (s : List Char) : Option (List Char) :=
  match s with
  | '[' :: rest =>
      let r1 := rest.dropWhile isParamByte
      let r2 := r1.dropWhile isIntermediateByte
      match r2 with
      | c :: r3 => if isFinalByte c then some r3 else none
      | [] => none
  | _ => none

theorem matchCsi_length {s r : List Char} (h : matchCsi s = some r) :
    r.length < s.length := by
  unfold matchCsi at h
  split at h
  · rename_i rest
    dsimp only at h
    split at h
    · rename_i c r3 heq
      split at h
      · cases h
        have h2 : ((rest.dropWhile isParamByte).dropWhile
            isIntermediateByte).length ≤ (rest.dropWhile isParamByte).length :=
          (List.dropWhile_sublist _).length_le
        have h1 : (rest.dropWhile isParamByte).length ≤ rest.length :=
          (List.dropWhile_sublist _).length_le
        rw [heq] at h2
        simp only [List.length_cons] at h2 ⊢
        omega
      · simp at h
    · simp at h
  · simp at h

/-- Fuel-indexed variant of the substitution scan; `matchCsi_length`
shows every match strictly shrinks the list, so `fuel = s.length`
always suffices and the fuel-exhausted branch is unreachable. -/
def ansiSubFuel : Nat → List Char → List Char
  | 0, s => s
  | _ + 1, [] => []
  | fuel + 1, c :: rest =>
      if c = ESC then
        match matchCsi rest with
        | some r => ansiSubFuel fuel r
        | none => c :: ansiSubFuel fuel rest
      else
        c :: ansiSubFuel fuel rest

/-- Python `ANSI_ESCAPE_RE.sub("", s)`: remove every leftmost non-overlapping
match of the escape-sequence pattern. -/
def ansiSub (s : List Char) : List Char :=
  ansiSubFuel s.length s

/-- Python `s.replace("\t", "    ")`: each tab becomes four spaces. -/
def tabReplace : List Char → List Char
  | [] => []
  | c :: rest => (if c = '\t' then [' ', ' ', ' ', ' '] else [c]) ++ tabReplace rest

/-- The character predicate of the final comprehension in `sanitize_line`:
keep `\n`, `\r`, `\t`, printable ASCII 32..126, and code points ≥ 160. -/
def keepChar (c : Char) : Bool :=
  c = '\n' || c = '\r' || c = '\t' || (32 ≤ c.toNat && c.toNat ≤ 126) ||
    160 ≤ c.toNat

/-- Python `sanitize_line`: strip ANSI sequences, expand tabs, drop other
control characters. -/
def sanitizeLine (s : List Char) : List Char :=
  (tabReplace (ansiSub s)).filter keepChar

theorem ansiSubFuel_of_not_mem_esc :
    ∀ (fuel : Nat) (s : List Char), ESC ∉ s → ansiSubFuel fuel s = s := by
  intro fuel
  induction fuel with
  | zero => intro s _; rfl
  | succ fuel ih =>
      intro s h
      cases s with
      | nil => rfl
      | cons c rest =>
          have hc : c ≠ ESC := fun hc => h (hc ▸ List.mem_cons_self c rest)
          have hrest : ESC ∉ rest := fun hr => h (List.mem_cons_of_mem c hr)
          rw [ansiSubFuel, if_neg hc, ih rest hrest]

theorem ansiSub_of_not_mem_esc {s : List Char} (h : ESC ∉ s) :
    ansiSub s = s :=
  ansiSubFuel_of_not_mem_esc s.length s h

theorem mem_tabReplace {c : Char} {s : List Char} (h : c ∈ tabReplace s) :
    c = ' ' ∨ c ∈ s := by
  induction s with
  | nil => simp [tabReplace] at h
  | cons d rest ih =>
      rw [tabReplace] at h
      rcases List.mem_append.mp h with h1 | h1
      · by_cases hd : d = '\t'
        · rw [if_pos hd] at h1
          left
          simpa using h1
        · rw [if_neg hd] at h1
          right
          simp only [List.mem_singleton] at h1
          exact h1 ▸ List.mem_cons_self d rest
      · rcases ih h1 with h2 | h2
        · exact Or.inl h2
        · exact Or.inr (List.mem_cons_of_mem d h2)

theorem tab_not_mem_tabReplace (s : List Char) : '\t' ∉ tabReplace s := by
  induction s with
  | nil => simp [tabReplace]
  | cons d rest ih =>
      rw [tabReplace]
      intro h
      rcases List.mem_append.mp h with h1 | h1
      · by_cases hd : d = '\t'
        · rw [if_pos hd] at h1
          simp at h1
        · rw [if_neg hd] at h1
          simp only [List.mem_singleton] at h1
          exact hd h1.symm
      · exact ih h1

theorem tabReplace_of_not_mem_tab {s : List Char} (h : '\t' ∉ s) :
    tabReplace s = s := by
  induction s with
  | nil => rfl
  | cons c rest ih =>
      have hc : c ≠ '\t' := fun hc => h (hc ▸ List.mem_cons_self c rest)
      have hrest : '\t' ∉ rest := fun hr => h (List.mem_cons_of_mem c hr)
      rw [tabReplace, if_neg hc, ih hrest]
      rfl

/-- C7 helper: a sanitized string contains no ESC, no tab, and only
characters accepted by `keepChar`. -/
theorem sanitizeLine_chars (s : List Char) :
    ESC ∉ sanitizeLine s ∧ '\t' ∉ sanitizeLine s ∧
      ∀ c ∈ sanitizeLine s, keepChar c = true := by
  refine ⟨?_, ?_, ?_⟩
  · intro h
    have h2 := List.of_mem_filter h
    have h3 : keepChar ESC = false := by decide
    rw [h3] at h2
    cases h2
  · intro h
    exact tab_not_mem_tabReplace _ (List.mem_of_mem_filter h)
  · intro c hc
    exact List.of_mem_filter hc

/-- C7: the sanitizer is idempotent: for every input string `s`,
`sanitize_line(sanitize_line(s)) == sanitize_line(s)`. -/
theorem sanitize_line_idempotent (s : List Char) :
    sanitizeLine (sanitizeLine s) = sanitizeLine s := by
  obtain ⟨hesc, htab, hkeep⟩ := sanitizeLine_chars s
  have h1 : sanitizeLine (sanitizeLine s) =
      (tabReplace (ansiSub (sanitizeLine s))).filter keepChar := rfl
  rw [h1, ansiSub_of_not_mem_esc hesc, tabReplace_of_not_mem_tab htab]
  exact List.filter_eq_self.mpr hkeep

/-- C1: appending any sequence of lines through the `deque(maxlen=MAX_LINES)`
buffer keeps its length at most `MAX_LINES = 5000`, and the buffer then
holds exactly the last `MAX_LINES` appended lines in append order (all of
them when fewer were appended); the evicted prefix is always the oldest
lines. -/
theorem buffer_bounded_fifo (xs : List (List Char)) :
    (appendAll MAX_LINES xs).length ≤ MAX_LINES ∧
      appendAll MAX_LINES xs = xs.drop (xs.length - MAX_LINES) := by
  refine ⟨?_, ?_⟩
  · rw [appendAll_eq_lastN]
    exact lastN_length_le _ _
  · rw [appendAll_eq_lastN]
    rfl

/-! ## Case mapping and filtering helpers -/

/-- ASCII lower-casing, the relevant fragment of Python `str.lower()`
(log level tokens and filter strings here are ASCII). -/
def asciiLower (c : Char) : Char :=
  if 'A' ≤ c ∧ c ≤ 'Z' then Char.ofNat (c.toNat + 32) else c

/-- ASCII upper-casing, the relevant fragment of Python `str.upper()`. -/
def asciiUpper (c : Char) : Char :=
  if 'a' ≤ c ∧ c ≤ 'z' then Char.ofNat (c.toNat - 32) else c

def lowerL (s : List Char) : List Char := s.map asciiLower

def upperL (s : List Char) : List Char := s.map asciiUpper

/-- Python regex word character (ASCII fragment of `\w`). -/
def isWordChar (c : Char) : Bool := c.isAlphanum || c = '_'

def wordCharOpt : Option Char → Bool
  | none => false
  | some c => isWordChar c

/-! ## `LogModel._passes_level_filter` (TUI)

The source runs `re.search(rf"\b{re.escape(level)}\b", line, re.IGNORECASE)`.
For a token of word characters, a `\b` immediately before it holds exactly
when the preceding character (if any) is not a word character, and the `\b`
after it when the following character (if any) is not one; `re.search`
tries each start position from the left.  `re.escape` is the identity on
the alphabetic level tokens, and the `re.error` fallback branch cannot
trigger for them. -/

/-- Does the word-bounded token `pat` match at the current position, where
`prev` is the character just before the position (`none` at line start)? -/
def matchHere (pat : List Char) (prev : Option Char) (s : List Char) : Bool :=
  !wordCharOpt prev &&
    ((s.take pat.length).map asciiLower == pat.map asciiLower) &&
    !wordCharOpt ((s.drop pat.length).head?)

/-- Scan of `re.search`: try each start position left to right. -/
def findWordToken (pat : List Char) (prev : Option Char) : List Char → Bool
  | [] => matchHere pat prev []
  | c :: rest => matchHere pat prev (c :: rest) || findWordToken pat (some c) rest

def ANY : List Char := ['A', 'N', 'Y']

/-- Predicate `LogModel._passes_level_filter(line)` with level filter `level`. -/
def passes_level_filter (level line : List Char) : Bool :=
  if level = ANY then true else findWordToken level none line

/-! ## `line_passes_filters` (web viewer) -/

/-- Python substring containment `pat in s`. -/
def isSubstring (pat : List Char) : List Char → Bool
  | [] => pat.isEmpty
  | c :: rest => (((c :: rest).take pat.length) == pat) || isSubstring pat rest

/-- Predicate `line_passes_filters(line, level, q)` from `log_web.py`. -/
def line_passes_filters (line level q : List Char) : Bool :=
  (if level ≠ [] ∧ upperL level ≠ ANY then
      isSubstring (upperL level) (upperL line)
    else true) &&
  (if q ≠ [] then isSubstring (lowerL q) (lowerL line) else true)

/-- Specification-side predicate (from the spec's words): `level` occurs
in `line` as a case-insensitive, word-bounded token. -/
def ContainsWordToken (pat line : List Char) : Prop :=
  ∃ pre mid post, line = pre ++ mid ++ post ∧
    mid.map asciiLower = pat.map asciiLower ∧
    wordCharOpt pre.getLast? = false ∧
    wordCharOpt post.head? = false

theorem matchHere_iff (pat : List Char) (prev : Option Char) (s : List Char) :
    matchHere pat prev s = true ↔
      wordCharOpt prev = false ∧
      ∃ mid post, s = mid ++ post ∧
        mid.map asciiLower = pat.map asciiLower ∧
        wordCharOpt post.head? = false := by
  constructor
  · intro h
    simp only [matchHere, Bool.and_eq_true, Bool.not_eq_true', beq_iff_eq] at h
    obtain ⟨⟨hprev, htake⟩, hnext⟩ := h
    exact ⟨hprev, s.take pat.length, s.drop pat.length,
      (s.take_append_drop pat.length).symm, htake, hnext⟩
  · rintro ⟨hprev, mid, post, rfl, hmid, hpost⟩
    have hlen : mid.length = pat.length := by
      have := congrArg List.length hmid
      simpa using this
    simp only [matchHere, Bool.and_eq_true, Bool.not_eq_true', beq_iff_eq]
    refine ⟨⟨hprev, ?_⟩, ?_⟩
    · rw [← hlen, List.take_left]
      exact hmid
    · rw [← hlen, List.drop_left]
      exact hpost

theorem findWordToken_iff (pat s : List Char) :
    ∀ prev : Option Char,
      findWordToken pat prev s = true ↔
        ∃ pre mid post, s = pre ++ mid ++ post ∧
          mid.map asciiLower = pat.map asciiLower ∧
          (match pre.getLast? with
            | none => wordCharOpt prev
            | some c => isWordChar c) = false ∧
          wordCharOpt post.head? = false := by
  induction s with
  | nil =>
      intro prev
      rw [findWordToken, matchHere_iff]
      constructor
      · rintro ⟨hprev, mid, post, heq, hmid, hpost⟩
        exact ⟨[], mid, post, by simpa using heq, hmid, by simpa using hprev,
          hpost⟩
      · rintro ⟨pre, mid, post, heq, hmid, hpre, hpost⟩
        obtain ⟨h12, hpost0⟩ := List.append_eq_nil.mp heq.symm
        obtain ⟨hpre0, hmid0⟩ := List.append_eq_nil.mp h12
        subst hpre0
        refine ⟨by simpa using hpre, mid, post, ?_, hmid, hpost⟩
        rw [hmid0, hpost0]
        rfl
  | cons c rest ih =>
      intro prev
      rw [findWordToken]
      simp only [Bool.or_eq_true]
      constructor
      · rintro (h | h)
        · rw [matchHere_iff] at h
          obtain ⟨hprev, mid, post, heq, hmid, hpost⟩ := h
          exact ⟨[], mid, post, by simpa using heq, hmid,
            by simpa using hprev, hpost⟩
        · rw [ih (some c)] at h
          obtain ⟨pre, mid, post, heq, hmid, hpre, hpost⟩ := h
          refine ⟨c :: pre, mid, post, by simp [heq], hmid, ?_, hpost⟩
          cases pre with
          | nil => simpa using hpre
          | cons d pre' =>
              rw [List.getLast?_cons_cons]
              simpa using hpre
      · rintro ⟨pre, mid, post, heq, hmid, hpre, hpost⟩
        cases pre with
        | nil =>
            left
            rw [matchHere_iff]
            exact ⟨by simpa using hpre, mid, post, by simpa using heq, hmid,
              hpost⟩
        | cons d pre' =>
            right
            rw [ih (some c)]
            simp only [List.cons_append] at heq
            injection heq with hd hrest
            subst hd
            refine ⟨pre', mid, post, hrest, hmid, ?_, hpost⟩
            cases pre' with
            | nil => simpa using hpre
            | cons e pre'' =>
                rw [List.getLast?_cons_cons] at hpre
                simpa using hpre

theorem passes_level_filter_iff (level line : List Char) (h2 : level ≠ ANY) :
    passes_level_filter level line = true ↔ ContainsWordToken level line := by
  rw [passes_level_filter, if_neg h2, findWordToken_iff]
  constructor
  · rintro ⟨pre, mid, post, heq, hmid, hpre, hpost⟩
    refine ⟨pre, mid, post, heq, hmid, ?_, hpost⟩
    cases hl : pre.getLast? with
    | none => rfl
    | some c =>
        rw [hl] at hpre
        simpa [wordCharOpt] using hpre
  · rintro ⟨pre, mid, post, heq, hmid, hpre, hpost⟩
    refine ⟨pre, mid, post, heq, hmid, ?_, hpost⟩
    cases hl : pre.getLast? with
    | none => rfl
    | some c =>
        rw [hl] at hpre
        simpa [wordCharOpt] using hpre

/-- C2 (amended): for every level `L` of the six other than `ANY`, the TUI
level filter `LogModel._passes_level_filter` passes a line exactly when
`L` occurs in the line as a case-insensitive, word-bounded token; in the
web viewer `line_passes_filters` uses plain substring containment
instead (see the counterexample). -/
theorem level_filter_word_bounded (level line : List Char)
    (hmem : level ∈ LEVELS) (hany : level ≠ ANY) :
    passes_level_filter level line = true ↔ ContainsWordToken level line :=
  passes_level_filter_iff level line hany

/-- C2 witness: `ERROR` is a non-`ANY` level, and the word-bounded token
characterisation holds on a concrete line that passes the filter. -/
theorem level_filter_word_bounded_witness :
    ("ERROR".toList ∈ LEVELS ∧ "ERROR".toList ≠ ANY) ∧
      ContainsWordToken "ERROR".toList "boot ERROR: disk".toList :=
  ⟨⟨by decide, by decide⟩,
    (level_filter_word_bounded "ERROR".toList "boot ERROR: disk".toList
      (by decide) (by decide)).mp (by decide)⟩

/-- C2 counterexample: a line containing `ERRORCODE` (and no word-bounded
`ERROR`) does pass the web viewer's `line_passes_filters` for level
`ERROR`, while the TUI filter rejects it — the claim that word-bounded
matching holds for both implementations is false. -/
theorem web_level_filter_not_word_bounded :
    line_passes_filters "ERRORCODE 7".toList "ERROR".toList [] = true ∧
      passes_level_filter "ERROR".toList "ERRORCODE 7".toList = false := by
  decide

/-! ## `_best_match_container` -/

/-- Python `str.replace(a, b)` for single-character `a`, `b`. -/
def replaceChar (a b : Char) (s : List Char) : List Char :=
  s.map fun c => if c = a then b else c

/-- The candidate token list of `_best_match_container`, with empty
tokens removed (`tokens = [t for t in tokens if t]`). -/
def bestMatchTokens (preferred friendly : List Char) : List (List Char) :=
  ([preferred, replaceChar '-' '_' preferred, friendly,
    replaceChar ' ' '-' friendly, replaceChar ' ' '_' friendly]).filter
    fun t => !t.isEmpty

/-- Resolution `_best_match_container(preferred, friendly)`, with the running
container names (the result of `_list_docker_container_names`) passed
explicitly. -/
def best_match_container (names : List (List Char))
    (preferred friendly : List Char) : Option (List Char) :=
  if names = [] then none
  else
    match names.find? (· == preferred) with
    | some n => some n
    | none =>
        match (bestMatchTokens preferred friendly).findSome? (fun t =>
            ((names.map fun n => (n, lowerL n)).find? (fun p =>
              !(lowerL t).isEmpty && isSubstring (lowerL t) p.2)).map
              Prod.fst) with
        | some n => some n
        | none => names.head?

/-- Modelled from the spec's words: exact name equality first; then
case-insensitive substring containment trying, in order, the preferred
identifier, the preferred identifier with separators normalized, and the
friendly-name variants; then fall back to the first listed container. -/
def best_match_spec (names : List (List Char))
    (preferred friendly : List Char) : Option (List Char) :=
  if names = [] then none
  else if preferred ∈ names then some preferred
  else
    match ([preferred, replaceChar '-' '_' preferred, friendly,
        replaceChar ' ' '-' friendly, replaceChar ' ' '_' friendly]).findSome?
        (fun t => if t = [] then none
          else names.find? fun n => isSubstring (lowerL t) (lowerL n)) with
    | some n => some n
    | none => names.head?

theorem find?_beq_self (l : List (List Char)) (a : List Char) :
    l.find? (· == a) = if a ∈ l then some a else none := by
  induction l with
  | nil => simp
  | cons b l ih =>
      by_cases hb : b = a
      · subst hb
        simp [List.find?]
      · have hmem : a ∈ b :: l ↔ a ∈ l := by
          constructor
          · intro h
            rcases List.mem_cons.mp h with h1 | h1
            · exact absurd h1.symm hb
            · exact h1
          · exact List.mem_cons_of_mem b
        rw [List.find?_cons_of_neg _ (by simpa using hb), ih]
        by_cases hm : a ∈ l
        · rw [if_pos hm, if_pos (hmem.mpr hm)]
        · rw [if_neg hm, if_neg fun h => hm (hmem.mp h)]

theorem find?_map_pair (f : List Char → Bool) (names : List (List Char)) :
    ((names.map fun n => (n, lowerL n)).find? (fun p => f p.2)).map Prod.fst
      = names.find? fun n => f (lowerL n) := by
  induction names with
  | nil => simp
  | cons n names ih =>
      by_cases hf : f (lowerL n) = true
      · simp [List.find?, hf]
      · simp only [List.map_cons]
        rw [List.find?_cons_of_neg _ (by simpa using hf),
          List.find?_cons_of_neg _ (by simpa using hf)]
        exact ih

theorem findSome?_tokens (tokens names : List (List Char)) :
    (tokens.filter fun t => !t.isEmpty).findSome? (fun t =>
        ((names.map fun n => (n, lowerL n)).find? (fun p =>
          !(lowerL t).isEmpty && isSubstring (lowerL t) p.2)).map Prod.fst)
      = tokens.findSome? (fun t => if t = [] then none
          else names.find? fun n => isSubstring (lowerL t) (lowerL n)) := by
  induction tokens with
  | nil => rfl
  | cons t ts ih =>
      by_cases ht : t = []
      · subst ht
        simpa using ih
      · have hne : (!t.isEmpty) = true := by
          cases t with
          | nil => exact absurd rfl ht
          | cons c cs => rfl
        have hlow : (lowerL t).isEmpty = false := by
          cases t with
          | nil => exact absurd rfl ht
          | cons c cs => rfl
        have hfilt : List.filter (fun t => !t.isEmpty) (t :: ts) =
            t :: List.filter (fun t => !t.isEmpty) ts := by
          simp [List.filter_cons, hne]
        rw [hfilt, List.findSome?_cons, List.findSome?_cons]
        simp only [hlow, Bool.not_false, Bool.true_and, if_neg ht]
        rw [find?_map_pair (fun l => isSubstring (lowerL t) l) names]
        cases names.find? fun n => isSubstring (lowerL t) (lowerL n) with
        | none => exact ih
        | some n => rfl

/-- C8: container best-match resolution, equal to its specification:
exact name equality is tried before any substring heuristic (so with the
preferred identifier present it is returned regardless of order), then
substring candidates in the fixed order preferred, preferred with
separators normalized, friendly-name variants, then the first listed
container; in particular with preferred `svc-1` and running containers
`["other-svc-1", "svc-1"]` it resolves to `svc-1`. -/
theorem best_match_container_correct :
    (∀ names preferred friendly,
        best_match_container names preferred friendly =
          best_match_spec names preferred friendly) ∧
      best_match_container ["other-svc-1".toList, "svc-1".toList]
        "svc-1".toList "svc".toList = some "svc-1".toList := by
  constructor
  · intro names preferred friendly
    unfold best_match_container best_match_spec
    by_cases hn : names = []
    · simp [hn]
    · rw [if_neg hn, if_neg hn, find?_beq_self]
      by_cases hp : preferred ∈ names
      · simp [hp]
      · rw [if_neg hp, if_neg hp]
        rw [bestMatchTokens, findSome?_tokens]
  · decide

/-! ## `LogModel` state

The mutable fields of the Python `LogModel`; a held `subprocess.Popen`
handle and a follow thread are represented by `Option Unit` (present /
absent), and the `threading.Event` by its set flag. -/

structure LogModel where
  name : List Char
  docker_service : List Char
  fallback_path : List Char
  tail_n : Nat
  follow_enabled : Bool
  level_filter : List Char
  text_filter : List Char
  lines : List (List Char)
  stop_event : Bool
  source_type : List Char
  source_id : List Char
  docker_proc : Option Unit
  follow_thread : Option Unit
deriving DecidableEq

/-- Method `LogModel.append_message` / `self.lines.append(...)` through the
bounded deque. -/
def append_message (m : LogModel) (msg : List Char) : LogModel :=
  { m with lines := appendBounded MAX_LINES m.lines msg }

/-- Method `LogModel._clear_lines`. -/
def clear_lines (m : LogModel) : LogModel := { m with lines := [] }

/-- Method `LogModel.set_level`: `(level or "ANY").upper()`, replaced by `"ANY"`
when the result is not a known level.  A `none` argument models Python
`None`; an empty string is falsy, so both fall back to `"ANY"`. -/
def set_level (m : LogModel) (level : Option (List Char)) : LogModel :=
  let l0 := match level with
    | none => ANY
    | some s => if s = [] then ANY else s
  let l1 := upperL l0
  { m with level_filter := if l1 ∈ LEVELS then l1 else ANY }

/-- Method `LogModel.stop_follow`: clear the follow flag, set the stop event,
terminate and drop any docker subprocess, join and drop the follow
thread.  It never touches `self.lines`. -/
def stop_follow (m : LogModel) : LogModel :=
  { m with follow_enabled := false
           stop_event := true
           docker_proc := none
           follow_thread := none }

/-- C10: `set_level` is total (never raises): for every argument it
stores the upper-cased value when that is one of the six levels and
silently stores `ANY` otherwise, so the level filter always holds one of
the six levels; no other field of the model changes. -/
theorem set_level_total (m : LogModel) (level : Option (List Char)) :
    (set_level m level).level_filter ∈ LEVELS ∧
    (∀ s, level = some s → upperL s ∈ LEVELS →
      (set_level m level).level_filter = upperL s) ∧
    (∀ s, level = some s → upperL s ∉ LEVELS →
      (set_level m level).level_filter = ANY) ∧
    (level = none → (set_level m level).level_filter = ANY) ∧
    (set_level m level).name = m.name ∧
    (set_level m level).docker_service = m.docker_service ∧
    (set_level m level).fallback_path = m.fallback_path ∧
    (set_level m level).tail_n = m.tail_n ∧
    (set_level m level).follow_enabled = m.follow_enabled ∧
    (set_level m level).text_filter = m.text_filter ∧
    (set_level m level).lines = m.lines ∧
    (set_level m level).stop_event = m.stop_event ∧
    (set_level m level).source_type = m.source_type ∧
    (set_level m level).source_id = m.source_id ∧
    (set_level m level).docker_proc = m.docker_proc ∧
    (set_level m level).follow_thread = m.follow_thread := by
  refine ⟨?_, ?_, ?_, ?_, rfl, rfl, rfl, rfl, rfl, rfl, rfl, rfl, rfl, rfl,
    rfl, rfl⟩
  · simp only [set_level]
    split
    · assumption
    · decide
  · intro s hs hin
    subst hs
    simp only [set_level]
    by_cases hse : s = []
    · subst hse
      exact absurd hin (by decide)
    · simp only [if_neg hse, if_pos hin]
  · intro s hs hnin
    subst hs
    simp only [set_level]
    by_cases hse : s = []
    · subst hse
      rfl
    · simp only [if_neg hse, if_neg hnin]
  · intro hl
    subst hl
    rfl

/-- A concrete model used to instantiate witnesses. -/
def m0 : LogModel :=
  { name := "edge-gateway".toList
    docker_service := "edge-gateway".toList
    fallback_path := "/var/log/edge-gateway.log".toList
    tail_n := DEFAULT_TAIL
    follow_enabled := false
    level_filter := ANY
    text_filter := []
    lines := ["boot".toList]
    stop_event := false
    source_type := "unknown".toList
    source_id := []
    docker_proc := none
    follow_thread := none }

/-- C10 witness: `set_level` at the concrete inputs `"warn"` and
`"verbose"`. -/
theorem set_level_total_witness :
    (set_level m0 (some "warn".toList)).level_filter = upperL "warn".toList ∧
      (set_level m0 (some "verbose".toList)).level_filter = ANY :=
  ⟨((set_level_total m0 (some "warn".toList)).2.1 "warn".toList rfl
      (by decide)),
    ((set_level_total m0 (some "verbose".toList)).2.2.1 "verbose".toList rfl
      (by decide))⟩

/-- C9: `stop_follow` with no active session (no held subprocess, no
follow thread) raises no error and leaves the line buffer unchanged, and
it is idempotent: any positive number of successive calls equals a
single call (in particular the buffer is as after one call). -/
theorem stop_follow_idempotent (m : LogModel)
    (hproc : m.docker_proc = none) (hthread : m.follow_thread = none)
    (k : Nat) :
    (stop_follow m).lines = m.lines ∧
      stop_follow^[k + 1] m = stop_follow m := by
  refine ⟨rfl, ?_⟩
  induction k with
  | zero => rfl
  | succ k ih =>
      rw [Function.iterate_succ_apply', ih]
      rfl

/-- C9 witness: `stop_follow` applied (three times) to a concrete idle
model. -/
theorem stop_follow_idempotent_witness :
    (stop_follow m0).lines = m0.lines ∧
      stop_follow^[3] m0 = stop_follow m0 :=
  stop_follow_idempotent m0 rfl rfl 2

/-! ## `_follow_docker_thread`

The outcome of `subprocess.Popen(docker_cmd([... "logs", "-f", ...]))`
and of the subsequent read loop is described by a `SpawnResult` oracle:
either `Popen` raises `FileNotFoundError`, or it raises another
exception, or the process starts, streams `outLines` (each already
stripped of its trailing newline by `rstrip("\n")`), writes `errText` on
stderr and exits with `exitCode`.  Local (non-remote) mode is modelled,
so the fallback continuation is `_follow_file_thread`, passed in as
`fileFollow`. -/

inductive SpawnResult where
  | fileNotFound
  | spawnError (msg : List Char)
  | started (outLines : List (List Char)) (errText : List Char)
      (exitCode : Int)

/-- Python `str.strip()` whitespace. -/
def isPySpace (c : Char) : Bool :=
  c = ' ' || c = '\t' || c = '\n' || c = '\r' || c = Char.ofNat 11 ||
    c = Char.ofNat 12

def stripWs (s : List Char) : List Char :=
  ((s.dropWhile isPySpace).reverse.dropWhile isPySpace).reverse

/-- Method `LogModel._follow_docker_thread`, for an already-resolved container
name.  When the spawn fails the thread appends a diagnostic, retargets
the source to the fallback file and runs the file-follow loop on the
same model; when the started process exits it appends diagnostics and
returns without invoking the file follow. -/
def follow_docker_thread (container : List Char) (spawn : SpawnResult)
    (fileFollow : LogModel → LogModel) (m : LogModel) : LogModel :=
  match spawn with
  | .fileNotFound =>
      let m1 := append_message m
        "[docker] Docker CLI not found. Falling back to file follow.".toList
      fileFollow { m1 with source_type := "file".toList
                           source_id := m.fallback_path }
  | .spawnError e =>
      let m1 := append_message m
        ("[docker] Failed to start docker logs: ".toList ++ e ++
          ". Falling back to file follow.".toList)
      fileFollow { m1 with source_type := "file".toList
                           source_id := m.fallback_path }
  | .started outLines errText exitCode =>
      let m1 := { m with docker_proc := some () }
      let m2 := append_message m1
        ("[docker] Following container '".toList ++ container ++
          "' (tail=".toList ++ (toString m.tail_n).toList ++ ")".toList)
      if m2.stop_event then
        -- stop requested before any read: the loop exits at once; the
        -- process is still running, so the finally block terminates it
        { m2 with docker_proc := none }
      else
        let m3 := outLines.foldl
          (fun acc l => append_message acc (sanitizeLine l)) m2
        let m4 := if stripWs errText ≠ [] then
            append_message m3 ("[docker] ".toList ++ stripWs errText)
          else m3
        let m5 := append_message m4
          ("[docker] Follow ended (exit=".toList ++
            (toString exitCode).toList ++ ").".toList)
        let m6 := { m5 with docker_proc := none }
        if m6.follow_enabled ∧ ¬m6.stop_event then
          append_message m6
            "[docker] Process ended. You can toggle follow to restart or press 'r' to reload.".toList
        else m6

/-- C3 (amended): when the docker log command cannot be started (binary
missing or spawn error), the session appends one `[docker]`-tagged
diagnostic line to the same buffer, retargets the source to the
service's fallback file, and continues as the file-follow loop applied
to that very state — no hard failure is surfaced.  (When the started
process exits, the session only appends diagnostics; see the
counterexample.) -/
theorem docker_follow_spawn_failure_falls_back (container e : List Char)
    (f : LogModel → LogModel) (m : LogModel) :
    ∃ r1 r2,
      follow_docker_thread container SpawnResult.fileNotFound f m =
        f { m with lines := appendBounded MAX_LINES m.lines
                              ("[docker] ".toList ++ r1)
                   source_type := "file".toList
                   source_id := m.fallback_path } ∧
      follow_docker_thread container (SpawnResult.spawnError e) f m =
        f { m with lines := appendBounded MAX_LINES m.lines
                              ("[docker] ".toList ++ r2)
                   source_type := "file".toList
                   source_id := m.fallback_path } :=
  ⟨"Docker CLI not found. Falling back to file follow.".toList,
    "Failed to start docker logs: ".toList ++ e ++
      ". Falling back to file follow.".toList,
    rfl, rfl⟩

/-- A concrete model in the state `start_follow` leaves before launching
the docker follow thread. -/
def m1 : LogModel :=
  { m0 with follow_enabled := true
            source_type := "docker".toList
            source_id := "edge-gateway".toList }

/-- C3 counterexample: when the started docker process exits (here with
code 1), the session does not switch to following the fallback file: the
source type stays `docker` and the file-follow continuation is never run
(its marker line is absent from the buffer), contrary to the claim. -/
theorem docker_follow_no_fallback_on_exit :
    (follow_docker_thread "edge-gateway".toList
        (SpawnResult.started [] [] 1)
        (fun mm => append_message mm "[file-follow-started]".toList)
        m1).source_type = "docker".toList ∧
      "[file-follow-started]".toList ∉
        (follow_docker_thread "edge-gateway".toList
          (SpawnResult.started [] [] 1)
          (fun mm => append_message mm "[file-follow-started]".toList)
          m1).lines := by
  decide

/-! ## `is_docker_available` and `LogModel.load`

`is_docker_available` wraps only the `Popen` call in try/except; the
`proc.communicate(timeout=5)` call sits in the `else` block, so a
`subprocess.TimeoutExpired` raised there propagates to the caller.  The
probe outcome is an oracle value; exceptions are modelled with `Except`. -/

inductive ProbeResult where
  | popenFileNotFound
  | popenError (msg : List Char)
  | timeoutExn
  | completed (code : Int) (out err : List Char)

inductive PyExn where
  | timeoutExpired
deriving DecidableEq

/-- The unavailability message selection of `is_docker_available`. -/
def dockerUnavailableMsg (remote : Bool) (code : Int) (err : List Char) :
    List Char :=
  let place := if remote then "remote host".toList else "local system".toList
  if code = 127 then
    "Docker CLI not found in PATH on ".toList ++ place ++
      ". Install Docker or adjust PATH.".toList
  else if isSubstring "permission denied".toList (lowerL err) then
    "Docker permission denied on ".toList ++ place ++
      ". Add user to docker group or run with sudo.".toList
  else
    "Docker CLI not available on ".toList ++ place ++
      ". Consider installing Docker or using sudo/root if required.".toList

def availResult (remote : Bool) (code : Int) (err : List Char) :
    Bool × Option (List Char) :=
  if code = 0 then (true, none)
  else (false, some (dockerUnavailableMsg remote code err))

/-- Probe `is_docker_available()`: Popen errors are caught and folded into a
return code, but a `communicate` timeout escapes as an exception. -/
def is_docker_available (remote : Bool) (probe : ProbeResult) :
    Except PyExn (Bool × Option (List Char)) :=
  match probe with
  | .popenFileNotFound =>
      Except.ok (availResult remote 127 "docker not found".toList)
  | .popenError e => Except.ok (availResult remote 1 e)
  | .timeoutExn => Except.error PyExn.timeoutExpired
  | .completed code _ err => Except.ok (availResult remote code err)

def append_line (m : LogModel) (l : List Char) : LogModel :=
  { m with lines := appendBounded MAX_LINES m.lines l }

/-- Method `LogModel.load()` in local (non-remote) mode: stop any follow, clear
the buffer, probe docker, tail via docker when available, otherwise tail
the fallback file; every failure of the tail calls is turned into one
tagged synthetic line and a final `[info] Loaded ...` line is appended.
The results of `docker_logs_tail` (lines, error, resolved name) and
`tail_lines` (lines, error) are oracle arguments, since those calls run
subprocesses and read files. -/
def load (probe : ProbeResult)
    (dockerTail : List (List Char) × Option (List Char) × List Char)
    (fileTail : List (List Char) × Option (List Char))
    (m : LogModel) : Except PyExn LogModel :=
  let m0 := clear_lines (stop_follow m)
  match is_docker_available false probe with
  | Except.error e => Except.error e
  | Except.ok avail =>
      let step1 :=
        if avail.1 then
          match dockerTail with
          | (data, none, resolved) =>
              ({ data.foldl append_line m0 with
                  source_type := "docker".toList
                  source_id := resolved }, true)
          | (_, some err, _) =>
              (append_message m0 ("[docker] ".toList ++ err), false)
        else
          match avail.2 with
          | some msg => (append_message m0 ("[docker] ".toList ++ msg), false)
          | none => (m0, false)
      let m2 :=
        if step1.2 then step1.1
        else
          let m1 := step1.1
          let m1b :=
            match fileTail with
            | (_, some ferr) =>
                append_message m1 ("[file] ".toList ++ ferr)
            | (data, none) => data.foldl append_line m1
          { m1b with source_type := "file".toList
                     source_id := m.fallback_path }
      Except.ok (append_message m2
        ("[info] Loaded last ".toList ++ (toString m2.tail_n).toList ++
          " lines from ".toList ++ m2.source_type ++ ": ".toList ++
          m2.source_id))

theorem appendBounded_ne_nil (buf : List (List Char)) (x : List Char) :
    appendBounded MAX_LINES buf x ≠ [] := by
  simp only [appendBounded]
  intro h
  by_cases hc : MAX_LINES < (buf ++ [x]).length
  · rw [if_pos hc] at h
    have := congrArg List.length h
    simp only [List.length_drop, List.length_nil] at this
    simp only [List.length_append, List.length_cons, List.length_nil] at this hc
    simp only [MAX_LINES] at this hc
    omega
  · rw [if_neg hc] at h
    have := congrArg List.length h
    simp at this

/-- C5: the docker-availability probe timing out makes `load()` raise
`subprocess.TimeoutExpired` to its caller — contrary to the intended
contract; for every probe outcome other than the timeout, `load()`
returns normally and always leaves at least one line in the buffer. -/
theorem load_timeout_escapes (probe : ProbeResult)
    (hne : probe ≠ ProbeResult.timeoutExn) :
    (∀ dockerTail fileTail m,
        load ProbeResult.timeoutExn dockerTail fileTail m =
          Except.error PyExn.timeoutExpired) ∧
      ∀ dockerTail fileTail m, ∃ m',
        load probe dockerTail fileTail m = Except.ok m' ∧ m'.lines ≠ [] := by
  constructor
  · intro dockerTail fileTail m
    rfl
  · intro dockerTail fileTail m
    cases probe with
    | timeoutExn => exact absurd rfl hne
    | popenFileNotFound =>
        exact ⟨_, rfl, appendBounded_ne_nil _ _⟩
    | popenError e =>
        exact ⟨_, rfl, appendBounded_ne_nil _ _⟩
    | completed code out err =>
        exact ⟨_, rfl, appendBounded_ne_nil _ _⟩

/-- C5 witness: at the concrete probe outcome `completed 0` (docker
available) with a successful docker tail, `load` returns normally with a
non-empty buffer, and the theorem also evaluates the timeout case there. -/
theorem load_timeout_escapes_witness :
    ∃ m', load (ProbeResult.completed 0 [] [])
        (["a".toList], none, "edge-gateway".toList) ([], none) m0 =
          Except.ok m' ∧ m'.lines ≠ [] :=
  (load_timeout_escapes (ProbeResult.completed 0 [] []) (by simp)).2
    (["a".toList], none, "edge-gateway".toList) ([], none) m0

/-! ## `_follow_file_thread`: one iteration of the follow loop

The loop state is the reader's offset (`last_pos`, where the open handle
is positioned) and the line buffer.  `content` is the file's current
contents when the iteration runs (`os.path.getsize` is assumed to
succeed on it, as it does for a readable regular file), and `reopen`
describes `open_and_seek_end` when a reopen is attempted: `none` for
success, `some e` when it fails with the formatted error message `e`. -/

structure FollowFileState where
  pos : Nat
  buf : List (List Char)
deriving DecidableEq

def rotationMsg : List Char :=
  "[file] Detected truncation/rotation. Reopening and seeking end.".toList

/-- Python `file_obj.readline()` from offset `pos`: the next line text
(without its trailing newline, as the caller strips it) and the new
offset, or `none` at end of file.  At end of file without a final
newline the partial text is returned. -/
def readLineAt (content : List Char) (pos : Nat) :
    Option (List Char × Nat) :=
  if pos < content.length then
    let rest := content.drop pos
    match rest.findIdx? (· = '\n') with
    | some i => some (rest.take i, pos + i + 1)
    | none => some (rest, content.length)
  else none

/-- One iteration of the `while not self._stop_event.is_set()` body of
`_follow_file_thread`: compare the current size against the last offset;
on shrinkage append the rotation line, reopen and seek to the new end
(the same iteration's `readline` then finds nothing); otherwise read and
append at most one sanitized line. -/
def follow_file_step (content : List Char) (reopen : Option (List Char))
    (st : FollowFileState) : FollowFileState :=
  if content.length < st.pos then
    match reopen with
    | none => { pos := content.length
                buf := appendBounded MAX_LINES st.buf rotationMsg }
    | some e =>
        -- reopen failed: the error line is appended and the iteration
        -- ends with `continue`; the offset is unchanged
        { st with
          buf := appendBounded MAX_LINES
            (appendBounded MAX_LINES st.buf rotationMsg) e }
  else
    match readLineAt content st.pos with
    | some (line, newPos) =>
        { pos := newPos
          buf := appendBounded MAX_LINES st.buf (sanitizeLine line) }
    | none => st

/-- C6: in each iteration the current size is compared with the last
offset before reading.  When the file shrank (and reopening succeeds)
the iteration appends exactly the rotation-detected line and repositions
at the new end, appending no file content at all; otherwise the offset
never moves backwards and anything appended is a single sanitized line
drawn from the content at or after the previous offset — pre-truncation
content is never replayed. -/
theorem follow_file_truncation_step (content : List Char)
    (st : FollowFileState) :
    (content.length < st.pos →
      follow_file_step content none st =
        { pos := content.length
          buf := appendBounded MAX_LINES st.buf rotationMsg }) ∧
    (st.pos ≤ content.length →
      st.pos ≤ (follow_file_step content none st).pos ∧
      ((follow_file_step content none st).buf = st.buf ∨
        ∃ k, (follow_file_step content none st).buf =
          appendBounded MAX_LINES st.buf
            (sanitizeLine ((content.drop st.pos).take k)))) := by
  constructor
  · intro h
    simp only [follow_file_step, if_pos h]
  · intro h
    have hnot : ¬ content.length < st.pos := by omega
    simp only [follow_file_step, if_neg hnot]
    by_cases hend : st.pos < content.length
    · simp only [readLineAt, if_pos hend]
      cases hidx : (content.drop st.pos).findIdx? (· = '\n') with
      | some i =>
          refine ⟨?_, Or.inr ⟨i, rfl⟩⟩
          show st.pos ≤ st.pos + i + 1
          omega
      | none =>
          refine ⟨?_, Or.inr ⟨(content.drop st.pos).length, ?_⟩⟩
          · show st.pos ≤ content.length
            omega
          · rw [List.take_length]
    · simp only [readLineAt, if_neg hend]
      exact ⟨le_refl _, Or.inl trivial⟩

/-- C6 witness: a concrete truncated file (2 bytes, old offset 5) yields
exactly the rotation line and the new end offset, and a concrete normal
read advances forward. -/
theorem follow_file_truncation_step_witness :
    follow_file_step "ab".toList none ⟨5, []⟩ =
        { pos := 2, buf := [rotationMsg] } ∧
      1 ≤ (follow_file_step "a\nbc".toList none ⟨1, []⟩).pos :=
  ⟨by
    have h := (follow_file_truncation_step "ab".toList ⟨5, []⟩).1
      (by decide)
    simpa using h,
   ((follow_file_truncation_step "a\nbc".toList ⟨1, []⟩).2 (by decide)).1⟩

/-! ## `tail_lines` (local file branch)

File bytes are `List Nat`.  `bytes.splitlines()` splits on LF, CR and
CRLF.  The read loop is fuel-indexed: each iteration reads at least one
byte (the initial `to_read = n * 100` is positive and never shrinks), so
`fuel = file_size` iterations always suffice and the fuel-exhausted
branch is unreachable. -/

def splitlinesAux : Nat → List Nat → List Nat → List (List Nat)
  | 0, _, cur => if cur = [] then [] else [cur.reverse]
  | fuel + 1, s, cur =>
      match s with
      | [] => if cur = [] then [] else [cur.reverse]
      | 13 :: 10 :: rest => cur.reverse :: splitlinesAux fuel rest []
      | 13 :: rest => cur.reverse :: splitlinesAux fuel rest []
      | 10 :: rest => cur.reverse :: splitlinesAux fuel rest []
      | b :: rest => splitlinesAux fuel rest (b :: cur)

/-- Python `bytes.splitlines()`.  Fuel-indexed (every step consumes at
least one byte, so `s.length` fuel always suffices and the exhausted
branch agrees with the empty case). -/
def splitlinesB (s : List Nat) : List (List Nat) :=
  splitlinesAux s.length s []

/-- The `while pos > 0 and len(b"\n".join(blocks).splitlines()) <= n`
loop of `tail_lines`: read a block of `min(to_read, pos)` bytes ending
at `pos`, prepend it to `blocks`, double `to_read` while it is below the
file size.  Note the loop condition joins the blocks with an extra
newline byte between them. -/
def tailLoop (content : List Nat) (n fileSize : Nat) :
    Nat → Nat → Nat → List (List Nat) → List (List Nat)
  | 0, _, _, blocks => blocks
  | fuel + 1, toRead, pos, blocks =>
      if 0 < pos ∧ (splitlinesB (List.intercalate [10] blocks)).length ≤ n
      then
        let readSize := min toRead pos
        let pos2 := pos - readSize
        let data := (content.drop pos2).take readSize
        let toRead2 := if toRead < fileSize then toRead * 2 else toRead
        tailLoop content n fileSize fuel toRead2 pos2 (data :: blocks)
      else blocks

/-- The ASCII fragment of `bytes.decode("utf-8", errors="replace")`:
bytes below 0x80 decode to themselves and any other byte to U+FFFD
(sufficient for the ASCII inputs evaluated here; multi-byte sequences
are not modelled). -/
def decodeByte (b : Nat) : Char :=
  if b ≤ 127 then Char.ofNat b else Char.ofNat 0xFFFD

def decodeAsciiL (bl : List Nat) : List Char := bl.map decodeByte

/-- The local (non-remote) branch of `tail_lines(path, n)` on a readable
regular file with contents `content`; returns the decoded, sanitized
line list (the error component is `None` on this path). -/
def tail_lines_local (content : List Nat) (n : Nat) : List (List Char) :=
  if n = 0 then []
  else
    let fileSize := content.length
    let blocks := tailLoop content n fileSize fileSize (n * 100) fileSize []
    let joined := blocks.flatten
    let lines := splitlinesB joined
    let tail := if n ≤ lines.length then lines.drop (lines.length - n)
      else lines
    tail.map fun bl => sanitizeLine (decodeAsciiL bl)

/-- The last `n` newline-delimited lines of the file, decoded and
sanitized the same way — what the claim says `tail_lines` returns. -/
def fileLastLines (content : List Nat) (n : Nat) : List (List Char) :=
  ((splitlinesB content).drop ((splitlinesB content).length - n)).map
    fun bl => sanitizeLine (decodeAsciiL bl)

set_option maxRecDepth 8192

/-- C4: on a 350-byte file consisting of one newline-free line of `A`s,
`tail_lines(path, 1)` stops reading after 300 bytes (the loop condition
counts a spurious newline inserted between blocks by
`b"\n".join(blocks)`) and returns the last 300 bytes of the line instead
of the whole last line: the returned first line is silently truncated. -/
theorem tail_lines_truncates_long_line :
    tail_lines_local (List.replicate 350 65) 1 =
        [List.replicate 300 'A'] ∧
      fileLastLines (List.replicate 350 65) 1 =
        [List.replicate 350 'A'] ∧
      tail_lines_local (List.replicate 350 65) 1 ≠
        fileLastLines (List.replicate 350 65) 1 := by
  refine ⟨by decide, by decide, by decide⟩
